import Mathlib

/-!
Verification of the FFmpeg coded-bitstream core: the MPEG-2 CBS splitter and
assembler, the AV1 OBU parsing and the AV1 frame merge/split bitstream
filters, and the IAMF demuxer/muxer helpers.  Byte buffers are modelled as
`List Nat` with each element a byte value; machine integers are `Nat` or
`Int` with explicit wrapping where the C code can overflow.
-/

namespace FFmpegSpec

namespace MPEG2

/-- Modelled from the spec: `avpriv_find_start_code` (libavcodec/utils.c) is
not part of this tree.  Section 4.2 of the spec: scan for the 3-byte
start-code sequence 00 00 01; the returned position points at the byte
following the start_code_identifier of the first start code found at or
after position `j`, and is the end of the buffer when no further complete
start code (3-byte sequence plus identifier byte) is present. -/
def findStartCode (B : List Nat) (j : Nat) : Nat :=
  if h : j + 3 < B.length then
    if B.getD j 0 = 0 ∧ B.getD (j + 1) 0 = 0 ∧ B.getD (j + 2) 0 = 1 then
      j + 4
    else
      findStartCode B (j + 1)
  else
    B.length
termination_by B.length - j

/-- Characterisation of `findStartCode`: it either reports end-of-buffer, or
returns the position right after the identifier byte of a start code whose
3-byte 00 00 01 sequence lies fully inside the buffer at or after `j`. -/
theorem findStartCode_spec (B : List Nat) (j : Nat) :
    findStartCode B j = B.length ∨
    (∃ k, j ≤ k ∧ k + 3 < B.length ∧ B.getD k 0 = 0 ∧ B.getD (k + 1) 0 = 0 ∧
      B.getD (k + 2) 0 = 1 ∧ findStartCode B j = k + 4) := by
  unfold findStartCode
  split
  case isTrue h =>
    split
    case isTrue hpat =>
      exact Or.inr ⟨j, Nat.le_refl _, h, hpat.1, hpat.2.1, hpat.2.2, rfl⟩
    case isFalse hpat =>
      rcases findStartCode_spec B (j + 1) with h1 | ⟨k, hk, rest⟩
      · exact Or.inl h1
      · exact Or.inr ⟨k, by omega, rest⟩
  case isFalse h =>
    exact Or.inl rfl
termination_by B.length - j

/-- One MPEG-2 unit as produced by `cbs_mpeg2_split_fragment`: the unit type
tag (`start_code & 0xff`, i.e. the byte at `start - 1`) and the raw data
span, which begins with the start_code_identifier byte and excludes the
3-byte 00 00 01 sequence stripped at split time. -/
structure MP2Unit where
  unitType : Nat
  data : List Nat
deriving Repr, DecidableEq, Inhabited

/-- Byte span `[a, b)` of a buffer, as used by the splitter when slicing a
fragment. -/
def slice (B : List Nat) (a b : Nat) : List Nat :=
  (B.drop a).take (b - a)

/-- Loop body of `cbs_mpeg2_split_fragment` (cbs_mpeg2.c:133-162).  `start`
is the index of the byte following the current start_code_identifier.  Each
unit spans from `start - 1` to the beginning of the next start code (index
`end - 4`), or to the end of the buffer for the final unit. -/
def splitLoop (B : List Nat) (start : Nat) : List MP2Unit :=
  if he : findStartCode B start = B.length then
    [⟨B.getD (start - 1) 0xFF, slice B (start - 1) B.length⟩]
  else
    ⟨B.getD (start - 1) 0xFF, slice B (start - 1) (findStartCode B start - 4)⟩
      :: splitLoop B (findStartCode B start)
termination_by B.length - start
decreasing_by
  rcases findStartCode_spec B start with h | ⟨k, hk1, hk2, _, _, _, h4⟩
  · exact absurd h he
  · omega

/-- Entry point of `cbs_mpeg2_split_fragment` (cbs_mpeg2.c:121-165): locate
the first start code, then slice the buffer into units.  The C function
returns success (0) regardless of whether the buffer begins with a start
code. -/
def cbs_mpeg2_split_fragment (B : List Nat) : List MP2Unit :=
  splitLoop B (findStartCode B 0)

/-- Embedding of `cbs_mpeg2_assemble_fragment` (cbs_mpeg2.c:355-390): write
the 3 bytes 00 00 01 followed by the unit data, for every unit in order. -/
def cbs_mpeg2_assemble_fragment (units : List MP2Unit) : List Nat :=
  (units.map (fun u => 0 :: 0 :: 1 :: u.data)).flatten

/-- Dropping at an in-bounds position exposes the byte there. -/
theorem drop_eq_getD_cons (B : List Nat) (i : Nat) (h : i < B.length) :
    B.drop i = B.getD i 0 :: B.drop (i + 1) := by
  rw [List.drop_eq_getElem_cons h]
  congr 1
  exact (List.getD_eq_getElem B 0 h).symm

/-- Dropping from a position holding the bytes 00 00 01 exposes those three
bytes. -/
theorem drop_cons_three (B : List Nat) (i : Nat) (hi : i + 3 ≤ B.length)
    (h0 : B.getD i 0 = 0) (h1 : B.getD (i + 1) 0 = 0) (h2 : B.getD (i + 2) 0 = 1) :
    B.drop i = 0 :: 0 :: 1 :: B.drop (i + 3) := by
  have e0 : B.drop i = 0 :: B.drop (i + 1) := by
    rw [drop_eq_getD_cons B i (by omega), h0]
  have e1 : B.drop (i + 1) = 0 :: B.drop (i + 2) := by
    rw [drop_eq_getD_cons B (i + 1) (by omega), h1]
  have e2 : B.drop (i + 2) = 1 :: B.drop (i + 3) := by
    rw [drop_eq_getD_cons B (i + 2) (by omega), h2]
  rw [e0, e1, e2]

/-- A slice `[a, b)` followed by the remainder from `b` is the remainder from
`a`. -/
theorem slice_append_drop (B : List Nat) (a b : Nat) (hab : a ≤ b) :
    slice B a b ++ B.drop b = B.drop a := by
  have h := List.take_append_drop (b - a) (B.drop a)
  rw [List.drop_drop] at h
  have hb : a + (b - a) = b := by omega
  rw [hb] at h
  exact h

/-- A slice running to the end of the buffer is a plain drop. -/
theorem slice_to_length (B : List Nat) (a : Nat) :
    slice B a B.length = B.drop a := by
  unfold slice
  apply List.take_of_length_le
  simp

/-- Invariant of the split loop: starting right after the identifier byte of
a start code whose 00 00 01 sequence begins at `p`, reassembling the units
produced from there reproduces the buffer from position `p` on. -/
theorem splitLoop_assemble (B : List Nat) (p : Nat) (hle : p + 4 ≤ B.length)
    (hp0 : B.getD p 0 = 0) (hp1 : B.getD (p + 1) 0 = 0) (hp2 : B.getD (p + 2) 0 = 1) :
    cbs_mpeg2_assemble_fragment (splitLoop B (p + 4)) = B.drop p := by
  rw [splitLoop]
  split
  case isTrue he =>
    have h3 : p + 4 - 1 = p + 3 := by omega
    rw [h3, cbs_mpeg2_assemble_fragment]
    simp only [List.map_cons, List.map_nil, List.flatten_cons, List.flatten_nil,
      List.append_nil]
    rw [slice_to_length, drop_cons_three B p (by omega) hp0 hp1 hp2]
  case isFalse he =>
    obtain ⟨k, hk1, hk2, hk0a, hk0b, hk0c, h4e⟩ :=
      (findStartCode_spec B (p + 4)).resolve_left he
    rw [h4e]
    have hkk : k + 4 - 4 = k := by omega
    have h3 : p + 4 - 1 = p + 3 := by omega
    rw [hkk, h3]
    have ih := splitLoop_assemble B k (by omega) hk0a hk0b hk0c
    rw [cbs_mpeg2_assemble_fragment] at ih ⊢
    simp only [List.map_cons, List.flatten_cons]
    rw [ih]
    have hsl : slice B (p + 3) k ++ B.drop k = B.drop (p + 3) :=
      slice_append_drop B (p + 3) k (by omega)
    simp only [List.cons_append]
    rw [hsl, drop_cons_three B p (by omega) hp0 hp1 hp2]
termination_by B.length - p
decreasing_by omega

/-- Round-trip of the MPEG-2 splitter and assembler, for buffers that begin
with a complete start code: every byte stripped at split time is re-inserted
at assemble time and nothing else changes. -/
theorem C1_amended_roundtrip (B : List Nat) (hlen : 4 ≤ B.length)
    (hsc : B.take 3 = [0, 0, 1]) :
    cbs_mpeg2_assemble_fragment (cbs_mpeg2_split_fragment B) = B := by
  obtain ⟨t, rfl⟩ : ∃ t, B = 0 :: 0 :: 1 :: t := by
    rcases B with _ | ⟨a, B⟩
    · simp at hsc
    rcases B with _ | ⟨b, B⟩
    · simp at hsc
    rcases B with _ | ⟨c, B⟩
    · simp at hsc
    simp only [List.take_succ_cons, List.take_zero, List.cons.injEq, and_true] at hsc
    obtain ⟨rfl, rfl, rfl⟩ := hsc
    exact ⟨B, rfl⟩
  have hlen1 : 1 ≤ t.length := by
    simp only [List.length_cons] at hlen
    omega
  have hfind : findStartCode (0 :: 0 :: 1 :: t) 0 = 0 + 4 := by
    rw [findStartCode]
    rw [dif_pos (by simp; omega)]
    rw [if_pos (by simp)]
  rw [cbs_mpeg2_split_fragment, hfind]
  have h := splitLoop_assemble (0 :: 0 :: 1 :: t) 0 (by simp; omega) (by simp)
    (by simp) (by simp)
  simpa using h

/-- C1 counterexample: the MPEG-2 splitter successfully splits the buffer
FF (one unit is produced, and `cbs_mpeg2_split_fragment` reports success on
any buffer), but reassembling yields 00 00 01 FF, not the original buffer:
the round-trip claim fails for successfully split buffers that do not begin
with a start code. -/
theorem C1_counterexample :
    cbs_mpeg2_split_fragment [0xFF] = [⟨0xFF, [0xFF]⟩] ∧
    cbs_mpeg2_assemble_fragment (cbs_mpeg2_split_fragment [0xFF]) = [0, 0, 1, 0xFF] ∧
    [0, 0, 1, 0xFF] ≠ [0xFF] := by
  have hf0 : findStartCode [0xFF] 0 = 1 := by
    rw [findStartCode]
    norm_num
  have hf1 : findStartCode [0xFF] 1 = 1 := by
    rw [findStartCode]
    norm_num
  have hsplit : cbs_mpeg2_split_fragment [0xFF] = [⟨0xFF, [0xFF]⟩] := by
    rw [cbs_mpeg2_split_fragment, hf0, splitLoop]
    rw [dif_pos (by rw [hf1]; rfl)]
    decide
  refine ⟨hsplit, ?_, by decide⟩
  rw [hsplit]
  decide

/-- C1 witness: the round-trip theorem applied to a concrete buffer that
begins with a complete start code. -/
theorem C1_witness :
    cbs_mpeg2_assemble_fragment
      (cbs_mpeg2_split_fragment [0, 0, 1, 0xB8, 0x42, 0, 0, 1, 0x00, 0x55]) =
      [0, 0, 1, 0xB8, 0x42, 0, 0, 1, 0x00, 0x55] :=
  C1_amended_roundtrip _ (by decide) (by decide)

end MPEG2

/-- Error values used by the embedded functions, mirroring the AVERROR codes
returned by the C code. -/
inductive Err where
  | invalidData
  | erange
  | eagain
  | eof
  | einval
  | assertFail
  | fuelOut
deriving Repr, DecidableEq

namespace AV1

/-- Checked bitstream reader (GetBitContext): a byte buffer plus a bit
position.  The FFmpeg checked reader clamps the position at
`size_in_bits_plus8` and, thanks to the mandatory zeroed input padding,
reads zero bits beyond the end of the buffer. -/
structure GetBitContext where
  bytes : List Nat
  index : Nat
deriving Repr, DecidableEq

/-- Embedding of `init_get_bits8`: reader positioned at the first bit. -/
def init_get_bits8 (buf : List Nat) : GetBitContext := ⟨buf, 0⟩

/-- Bit `i` of the buffer in MSB-first order; zero beyond the end. -/
def bitAt (bytes : List Nat) (i : Nat) : Nat :=
  if i < 8 * bytes.length then (bytes.getD (i / 8) 0 >>> (7 - i % 8)) % 2 else 0

/-- Value of `n` consecutive bits starting at bit `pos`, MSB-first. -/
def bitsVal (bytes : List Nat) (pos n : Nat) : Nat :=
  (List.range n).foldl (fun v t => 2 * v + bitAt bytes (pos + t)) 0

/-- Position clamp of the checked reader (`size_in_bits_plus8`). -/
def GetBitContext.limit (gb : GetBitContext) : Nat := 8 * gb.bytes.length + 8

/-- Embedding of `get_bits`: read `n` bits and advance, clamping the
position as the checked reader does. -/
def get_bits (gb : GetBitContext) (n : Nat) : Nat × GetBitContext :=
  (bitsVal gb.bytes gb.index n, ⟨gb.bytes, min (gb.index + n) gb.limit⟩)

/-- Embedding of `get_bits1`. -/
def get_bits1 (gb : GetBitContext) : Nat × GetBitContext := get_bits gb 1

/-- Embedding of `skip_bits1`. -/
def skip_bits1 (gb : GetBitContext) : GetBitContext := (get_bits gb 1).2

/-- Embedding of `get_bits_count`. -/
def get_bits_count (gb : GetBitContext) : Nat := gb.index

/-- Loop of the AV1 `leb128` reader (av1_parse.h:80-91): up to 8 bytes, 7
value bits each; the loop simply stops after the 8th byte even when its
continuation bit is still set, returning the accumulated 56-bit value with
no error indication (the function has no error return path).  `fuel` is the
number of remaining iterations of the bounded for loop, i.e. `8 - i`. -/
def leb128_go (gb : GetBitContext) (ret i : Nat) : Nat → Nat × GetBitContext
  | 0 => (ret, gb)
  | fuel + 1 =>
    let r := get_bits gb 8
    let ret1 := ret ||| ((r.1 &&& 0x7f) <<< (i * 7))
    if r.1 &&& 0x80 = 0 then (ret1, r.2)
    else leb128_go r.2 ret1 (i + 1) fuel

/-- Embedding of `leb128` (av1_parse.h:80-91). -/
def leb128 (gb : GetBitContext) : Nat × GetBitContext := leb128_go gb 0 0 8

/-- Largest value of a 32-bit signed int. -/
def INT_MAX : Int := 2147483647

/-- Decoded OBU header fields plus the obu_size (an int64_t in C, negative
when computed by subtraction on a short buffer) and the payload start
position, as produced by `parse_obu_header` (av1_parse.c:28-59). -/
structure ObuHeader where
  obuType : Nat
  temporal_id : Nat
  spatial_id : Nat
  obu_size : Int
  start_pos : Nat
deriving Repr, DecidableEq, Inhabited

/-- Optional extension-header read of `parse_obu_header` (av1_parse.c:46-52):
temporal id, spatial id, and the reader after the 8 extension bits. -/
def read_extension_fields (gb : GetBitContext) (ext : Nat) : Nat × Nat × GetBitContext :=
  if ext ≠ 0 then
    let ra := get_bits gb 3
    let rb := get_bits ra.2 2
    (ra.1, rb.1, (get_bits rb.2 3).2)
  else (0, 0, gb)

/-- Size read of `parse_obu_header` (av1_parse.c:54-55): an explicit leb128
size when has_size_flag is set, otherwise size-by-subtraction from the
remaining buffer. -/
def read_obu_size (gb : GetBitContext) (has_size buf_len ext : Nat) : Int × GetBitContext :=
  if has_size ≠ 0 then
    let rl := leb128 gb
    ((rl.1 : Int), rl.2)
  else ((buf_len : Int) - 1 - (if ext ≠ 0 then 1 else 0), gb)

/-- Embedding of `parse_obu_header` (av1_parse.c:28-59). -/
def parse_obu_header (buf : List Nat) : Except Err ObuHeader :=
  let gb0 := init_get_bits8 buf
  let rf := get_bits1 gb0
  if rf.1 ≠ 0 then .error .invalidData
  else
    let rt := get_bits rf.2 4
    let re := get_bits1 rt.2
    let rs := get_bits1 re.2
    let gb1 := skip_bits1 rs.2
    let rext := read_extension_fields gb1 re.1
    let rsz := read_obu_size rext.2.2 rs.1 buf.length re.1
    .ok ⟨rt.1, rext.1, rext.2.1, rsz.1, get_bits_count rsz.2 / 8⟩

/-- One parsed OBU (av1_parse.h:29-45); the data pointers are represented by
the payload size and the raw size, which is all the split loop uses. -/
structure AV1OBU where
  obuType : Nat
  temporal_id : Nat
  spatial_id : Nat
  size : Nat
  raw_size : Nat
deriving Repr, DecidableEq, Inhabited

/-- Embedding of `ff_av1_extract_obu` (av1_parse.c:61-89): parse the header,
range-check the size, and report the OBU together with the number of bytes
consumed (`obu_size + start_pos`, the C return value). -/
def ff_av1_extract_obu (buf : List Nat) : Except Err (AV1OBU × Nat) :=
  match parse_obu_header buf with
  | .error e => .error e
  | .ok h =>
    if h.obu_size > INT_MAX / 8 ∨ h.obu_size < 0 then .error .erange
    else
      let len : Nat := (h.obu_size + (h.start_pos : Int)).toNat
      .ok (⟨h.obuType, h.temporal_id, h.spatial_id, h.obu_size.toNat, len⟩, len)

/-- Loop of `ff_av1_packet_split` (av1_parse.c:91-125): extract OBUs while
at least one byte is left, advancing by the consumed length
(`bytestream2_skip` clamps the skip at the remaining byte count, which
`List.drop` does as well).  `fuel` bounds the number of iterations; running
out of fuel is reported as the distinguished result `fuelOut`, which the
termination theorem shows unreachable with fuel `buf.length + 1`. -/
def av1_packet_split_go (buf : List Nat) : Nat → Except Err (List AV1OBU)
  | 0 => .error .fuelOut
  | fuel + 1 =>
    if buf.length = 0 then .ok []
    else
      match ff_av1_extract_obu buf with
      | .error e => .error e
      | .ok (obu, consumed) =>
        match av1_packet_split_go (buf.drop consumed) fuel with
        | .error e => .error e
        | .ok obus => .ok (obu :: obus)

/-- Embedding of `ff_av1_packet_split` (av1_parse.c:91-125). -/
def ff_av1_packet_split (buf : List Nat) : Except Err (List AV1OBU) :=
  av1_packet_split_go buf (buf.length + 1)

end AV1

namespace IAMF

open AV1

/-- Embedding of the loop of `get_leb128` (iamfdec.c:88-106): reads 7 value
bits per byte, at most 8 bytes; bytes 5 to 8 may only contribute bits that
keep the value inside 32 bits, and a set continuation bit on the 8th byte
is an `AVERROR_INVALIDDATA` (the C function returns the error code in band
as an unsigned value). -/
def get_leb128_go (gb : GetBitContext) (len i : Nat) : Nat → Except Err (Nat × GetBitContext)
  | 0 => .error .invalidData
  | fuel + 1 =>
    let r := get_bits gb 8
    let more := r.1 &&& 0x80
    let bits := r.1 &&& 0x7f
    if ¬(i ≤ 3 ∨ (i = 4 ∧ bits < 16)) ∧ bits ≠ 0 then
      .error .invalidData
    else
      let len1 := if i ≤ 3 ∨ (i = 4 ∧ bits < 16) then len ||| (bits <<< (i * 7)) else len
      if i + 1 = 8 ∧ more ≠ 0 then .error .invalidData
      else if more ≠ 0 then get_leb128_go r.2 len1 (i + 1) fuel
      else .ok (len1, r.2)

/-- Embedding of `get_leb128` (iamfdec.c:88-106).  `fuel` in the loop is the
number of remaining iterations, `8 - i`; it never reaches 0 because the
check on `i + 1 = 8` fires first. -/
def get_leb128 (gb : GetBitContext) : Except Err (Nat × GetBitContext) :=
  get_leb128_go gb 0 0 8

/-- Embedding of the loop of `leb` (iamfdec.c:197-219), the AVIOContext
variant: reading at end of input is an `AVERROR_INVALIDDATA` (eof_reached),
and on success the function returns the value, the number of bytes read and
the remaining input. -/
def leb_go (input : List Nat) (len i : Nat) : Nat → Except Err (Nat × Nat × List Nat)
  | 0 => .error .invalidData
  | fuel + 1 =>
    match input with
    | [] => .error .invalidData
    | byte :: rest =>
      let more := byte &&& 0x80
      let bits := byte &&& 0x7f
      if ¬(i ≤ 3 ∨ (i = 4 ∧ bits < 16)) ∧ bits ≠ 0 then
        .error .invalidData
      else
        let len1 := if i ≤ 3 ∨ (i = 4 ∧ bits < 16) then len ||| (bits <<< (i * 7)) else len
        if i + 1 = 8 ∧ more ≠ 0 then .error .invalidData
        else if more ≠ 0 then leb_go rest len1 (i + 1) fuel
        else .ok (len1, i + 1, rest)

/-- Embedding of `leb` (iamfdec.c:197-219).  `fuel` in the loop is the
number of remaining iterations, `8 - i`; it never reaches 0 because the
check on `i + 1 = 8` fires first. -/
def leb (input : List Nat) : Except Err (Nat × Nat × List Nat) :=
  leb_go input 0 0 8

end IAMF

namespace AV1

/-- Reading `n` bits advances the position by at most `n`. -/
theorem get_bits_snd_index (gb : GetBitContext) (n : Nat) :
    (get_bits gb n).2.index ≤ gb.index + n := by
  simp only [get_bits]
  exact Nat.min_le_left _ _

/-- Reading bits does not change the underlying buffer. -/
theorem get_bits_snd_bytes (gb : GetBitContext) (n : Nat) :
    (get_bits gb n).2.bytes = gb.bytes := rfl

/-- Bits at or after the end of the buffer read as zero. -/
theorem bitAt_of_ge (bytes : List Nat) (i : Nat) (h : 8 * bytes.length ≤ i) :
    bitAt bytes i = 0 := by
  simp only [bitAt]
  rw [if_neg (by omega)]

/-- Bit runs that start at or after the end of the buffer read as zero. -/
theorem bitsVal_of_ge (bytes : List Nat) (pos n : Nat) (h : 8 * bytes.length ≤ pos) :
    bitsVal bytes pos n = 0 := by
  induction n with
  | zero => rfl
  | succ n ih =>
    unfold bitsVal at ih ⊢
    rw [List.range_succ, List.foldl_append, ih]
    simp only [List.foldl_cons, List.foldl_nil]
    rw [bitAt_of_ge bytes (pos + n) (by omega)]

/-- A nonzero bit run starts inside the buffer. -/
theorem bitsVal_ne_zero_lt (bytes : List Nat) (pos n : Nat)
    (h : bitsVal bytes pos n ≠ 0) : pos < 8 * bytes.length := by
  by_contra hc
  exact h (bitsVal_of_ge bytes pos n (by omega))

/-- The AV1 leb128 loop advances the read position by at most 8 bits per
remaining iteration. -/
theorem leb128_go_index (fuel : Nat) : ∀ (gb : GetBitContext) (ret i : Nat),
    (leb128_go gb ret i fuel).2.index ≤ gb.index + 8 * fuel := by
  induction fuel with
  | zero =>
    intro gb ret i
    simp [leb128_go]
  | succ fuel ih =>
    intro gb ret i
    simp only [leb128_go]
    split
    · exact Nat.le_trans (get_bits_snd_index gb 8) (by omega)
    · exact Nat.le_trans (ih (get_bits gb 8).2 _ (i + 1))
        (by have := get_bits_snd_index gb 8; omega)

/-- C2 (AV1 part): `leb128` reads at most 8 bytes. -/
theorem leb128_index (gb : GetBitContext) :
    (leb128 gb).2.index ≤ gb.index + 64 :=
  leb128_go_index 8 gb 0 0

/-- The clamped reader position never exceeds the clamp. -/
theorem get_bits_index_le_limit (gb : GetBitContext) (n : Nat) :
    (get_bits gb n).2.index ≤ gb.limit :=
  Nat.min_le_right _ _

/-- Reading never moves the position backwards while it is within the
clamp. -/
theorem get_bits_index_ge (gb : GetBitContext) (n : Nat) (h : gb.index ≤ gb.limit) :
    gb.index ≤ (get_bits gb n).2.index := by
  simp only [get_bits]
  omega

/-- Reading preserves the clamp. -/
theorem get_bits_limit (gb : GetBitContext) (n : Nat) :
    (get_bits gb n).2.limit = gb.limit := rfl

/-- The AV1 leb128 loop keeps the position between its starting point and
the clamp. -/
theorem leb128_go_index_ge (fuel : Nat) : ∀ (gb : GetBitContext) (ret i : Nat),
    gb.index ≤ gb.limit →
    gb.index ≤ (leb128_go gb ret i fuel).2.index ∧
    (leb128_go gb ret i fuel).2.index ≤ gb.limit := by
  induction fuel with
  | zero =>
    intro gb ret i h
    exact ⟨Nat.le_refl _, h⟩
  | succ fuel ih =>
    intro gb ret i h
    simp only [leb128_go]
    split
    · exact ⟨get_bits_index_ge gb 8 h, get_bits_index_le_limit gb 8⟩
    · have h1 := get_bits_index_ge gb 8 h
      have h2 := get_bits_index_le_limit gb 8
      have h3 := ih (get_bits gb 8).2 (ret ||| (((get_bits gb 8).1 &&& 0x7f) <<< (i * 7)))
        (i + 1) (by rw [get_bits_limit]; exact h2)
      rw [get_bits_limit] at h3
      exact ⟨Nat.le_trans h1 h3.1, h3.2⟩

/-- The AV1 leb128 loop does not change the buffer. -/
theorem leb128_go_bytes (fuel : Nat) : ∀ (gb : GetBitContext) (ret i : Nat),
    (leb128_go gb ret i fuel).2.bytes = gb.bytes := by
  induction fuel with
  | zero =>
    intro gb ret i
    rfl
  | succ fuel ih =>
    intro gb ret i
    simp only [leb128_go]
    split
    · rfl
    · rw [ih]
      rfl

/-- The extension-field read does not change the buffer. -/
theorem read_extension_fields_bytes (gb : GetBitContext) (ext : Nat) :
    (read_extension_fields gb ext).2.2.bytes = gb.bytes := by
  unfold read_extension_fields
  split <;> rfl

/-- The extension-field read keeps the position between its starting point
and the clamp. -/
theorem read_extension_fields_index (gb : GetBitContext) (ext : Nat)
    (h : gb.index ≤ gb.limit) :
    gb.index ≤ (read_extension_fields gb ext).2.2.index ∧
    (read_extension_fields gb ext).2.2.index ≤ gb.limit := by
  unfold read_extension_fields
  split
  · refine ⟨?_, ?_⟩
    · refine Nat.le_trans (get_bits_index_ge gb 3 h) ?_
      refine Nat.le_trans (get_bits_index_ge _ 2 (get_bits_index_le_limit gb 3)) ?_
      exact get_bits_index_ge _ 3 (get_bits_index_le_limit _ 2)
    · exact get_bits_index_le_limit _ 3
  · exact ⟨Nat.le_refl _, h⟩

/-- The size read does not change the buffer. -/
theorem read_obu_size_bytes (gb : GetBitContext) (hs bl ext : Nat) :
    (read_obu_size gb hs bl ext).2.bytes = gb.bytes := by
  unfold read_obu_size
  split
  · exact leb128_go_bytes 8 gb 0 0
  · rfl

/-- The size read keeps the position between its starting point and the
clamp. -/
theorem read_obu_size_index (gb : GetBitContext) (hs bl ext : Nat)
    (h : gb.index ≤ gb.limit) :
    gb.index ≤ (read_obu_size gb hs bl ext).2.index ∧
    (read_obu_size gb hs bl ext).2.index ≤ gb.limit := by
  unfold read_obu_size
  split
  · exact leb128_go_index_ge 8 gb 0 0 h
  · exact ⟨Nat.le_refl _, h⟩

/-- Auxiliary bound: starting 8 bits into the buffer, the extension and
size reads leave the byte position between 1 and one byte past the buffer
end. -/
theorem start_pos_aux (buf : List Nat) (gb1 : GetBitContext) (hs ext : Nat)
    (hb : gb1.bytes = buf) (hge : 8 ≤ gb1.index) (hle : gb1.index ≤ gb1.limit) :
    1 ≤ (read_obu_size (read_extension_fields gb1 ext).2.2 hs buf.length ext).2.index / 8 ∧
    (read_obu_size (read_extension_fields gb1 ext).2.2 hs buf.length ext).2.index / 8 ≤
      buf.length + 1 := by
  have hext := read_extension_fields_index gb1 ext hle
  have hextb := read_extension_fields_bytes gb1 ext
  have hlim2 : (read_extension_fields gb1 ext).2.2.limit = gb1.limit := by
    rw [GetBitContext.limit, GetBitContext.limit, hextb]
  have hsz := read_obu_size_index (read_extension_fields gb1 ext).2.2 hs buf.length ext
    (by rw [hlim2]; exact hext.2)
  rw [hlim2] at hsz
  have hlim1 : gb1.limit = 8 * buf.length + 8 := by
    rw [GetBitContext.limit, hb]
  have h1 := hext.1
  have h2 := hsz.1
  have h3 := hsz.2
  constructor <;> omega

/-- Any successfully parsed OBU header has its payload start at least one
byte into the buffer (the first header byte is always consumed) and at most
one byte past its end (the reader clamp). -/
theorem parse_obu_header_start_pos (buf : List Nat) (hdr : ObuHeader)
    (h : parse_obu_header buf = .ok hdr) :
    1 ≤ hdr.start_pos ∧ hdr.start_pos ≤ buf.length + 1 := by
  simp only [parse_obu_header] at h
  split at h
  · cases h
  · cases h
    refine start_pos_aux buf _ _ _ rfl ?_ ?_
    · simp only [skip_bits1, get_bits1, get_bits, init_get_bits8, GetBitContext.limit]
      omega
    · simp only [skip_bits1, get_bits1, get_bits, init_get_bits8, GetBitContext.limit]
      omega

end AV1

namespace IAMF

open AV1

/-- An accepted `get_leb128` run advances the read position by at most 8
bits per remaining iteration. -/
theorem get_leb128_go_ok_index (fuel : Nat) : ∀ (gb : GetBitContext) (len i v : Nat)
    (gb2 : GetBitContext), get_leb128_go gb len i fuel = .ok (v, gb2) →
    gb2.index ≤ gb.index + 8 * fuel := by
  induction fuel with
  | zero =>
    intro gb len i v gb2 h
    simp [get_leb128_go] at h
  | succ fuel ih =>
    intro gb len i v gb2 h
    simp only [get_leb128_go] at h
    split at h
    · cases h
    · split at h
      · cases h
      · split at h
        · exact Nat.le_trans (ih (get_bits gb 8).2 _ (i + 1) v gb2 h)
            (by have := get_bits_snd_index gb 8; omega)
        · cases h
          exact Nat.le_trans (get_bits_snd_index gb 8) (by omega)

/-- A successful `leb` run reads `n - i` bytes in the remaining iterations,
with `n` at most `i + fuel`. -/
theorem leb_go_ok_spec (fuel : Nat) : ∀ (input : List Nat) (len i v n : Nat)
    (rest : List Nat), leb_go input len i fuel = .ok (v, n, rest) →
    i < n ∧ n ≤ i + fuel ∧ input.length + i = rest.length + n := by
  induction fuel with
  | zero =>
    intro input len i v n rest h
    simp [leb_go] at h
  | succ fuel ih =>
    intro input len i v n rest h
    match input with
    | [] => simp [leb_go] at h
    | byte :: rest0 =>
      simp only [leb_go] at h
      split at h
      · cases h
      · split at h
        · cases h
        · split at h
          · have := ih rest0 _ (i + 1) v n rest h
            simp only [List.length_cons]
            omega
          · cases h
            simp only [List.length_cons]
            omega

/-- When every remaining byte position carries a set continuation bit, the
`get_leb128` loop necessarily returns `AVERROR_INVALIDDATA`. -/
theorem get_leb128_go_all_cont (fuel : Nat) : ∀ (gb : GetBitContext) (len i : Nat),
    (∀ k, k < fuel → bitsVal gb.bytes (gb.index + 8 * k) 8 &&& 0x80 ≠ 0) →
    get_leb128_go gb len i fuel = .error .invalidData := by
  induction fuel with
  | zero =>
    intro gb len i _
    rfl
  | succ fuel ih =>
    intro gb len i hc
    have h0 : bitsVal gb.bytes gb.index 8 &&& 0x80 ≠ 0 := by
      have := hc 0 (by omega)
      simpa using this
    have hne : bitsVal gb.bytes gb.index 8 ≠ 0 := by
      intro h
      rw [h] at h0
      exact h0 rfl
    have hlt : gb.index < 8 * gb.bytes.length := bitsVal_ne_zero_lt _ _ _ hne
    have hidx : (get_bits gb 8).2.index = gb.index + 8 := by
      simp only [get_bits, GetBitContext.limit]
      omega
    simp only [get_leb128_go]
    split
    · rfl
    · split
      · rfl
      · split
        · apply ih (get_bits gb 8).2 _ (i + 1)
          intro k hk
          have hk1 := hc (k + 1) (by omega)
          have harith : (get_bits gb 8).2.index + 8 * k = gb.index + 8 * (k + 1) := by
            rw [hidx]
            omega
          rw [get_bits_snd_bytes, harith]
          exact hk1
        · rename_i hn
          exact absurd h0 hn

/-- When every remaining input byte carries a set continuation bit, the
`leb` loop necessarily returns `AVERROR_INVALIDDATA`. -/
theorem leb_go_all_cont (fuel : Nat) : ∀ (input : List Nat) (len i : Nat),
    (∀ k, k < fuel → input.getD k 0 &&& 0x80 ≠ 0) →
    leb_go input len i fuel = .error .invalidData := by
  induction fuel with
  | zero =>
    intro input len i _
    cases input <;> rfl
  | succ fuel ih =>
    intro input len i hc
    match input with
    | [] => rfl
    | byte :: rest =>
      have h0 : byte &&& 0x80 ≠ 0 := by
        have := hc 0 (by omega)
        simpa using this
      simp only [leb_go]
      split
      · rfl
      · split
        · rfl
        · apply ih rest _ (i + 1)
          intro k hk
          have := hc (k + 1) (by omega)
          simpa using this

/-- C2 amended: every leb128 decoder in the core reads at most 8 bytes (56
significant bits); the two IAMF decoders (`get_leb128` and `leb`) reject an
input whose first 8 bytes all carry the continuation bit — a value needing
a 9th byte — with InvalidData, while the AV1 `leb128` stops after 8 bytes
and returns the truncated 56-bit value with no error indication. -/
theorem C2_amended :
    (∀ gb : GetBitContext, (leb128 gb).2.index ≤ gb.index + 64) ∧
    (∀ (gb : GetBitContext) (v : Nat) (gb2 : GetBitContext),
      get_leb128 gb = .ok (v, gb2) → gb2.index ≤ gb.index + 64) ∧
    (∀ (input : List Nat) (v n : Nat) (rest : List Nat),
      leb input = .ok (v, n, rest) → n ≤ 8 ∧ input.length = rest.length + n) ∧
    (∀ gb : GetBitContext,
      (∀ k, k < 8 → bitsVal gb.bytes (gb.index + 8 * k) 8 &&& 0x80 ≠ 0) →
      get_leb128 gb = .error .invalidData) ∧
    (∀ input : List Nat, (∀ k, k < 8 → input.getD k 0 &&& 0x80 ≠ 0) →
      leb input = .error .invalidData) := by
  refine ⟨leb128_index, ?_, ?_, ?_, ?_⟩
  · intro gb v gb2 h
    exact get_leb128_go_ok_index 8 gb 0 0 v gb2 h
  · intro input v n rest h
    have := leb_go_ok_spec 8 input 0 0 v n rest h
    omega
  · intro gb hc
    exact get_leb128_go_all_cont 8 gb 0 0 hc
  · intro input hc
    exact leb_go_all_cont 8 input 0 0 hc

/-- C2 counterexample: on the input 80 80 80 80 80 80 80 80 01 — eight
continuation bytes, so the encoded value needs a 9th byte — both IAMF
decoders return InvalidData, but the AV1 `leb128` accepts silently,
returning the truncated value 0 after consuming exactly 8 bytes: the claim
that all three reject such input is false for the AV1 decoder. -/
theorem C2_counterexample :
    leb128 (init_get_bits8 [0x80, 0x80, 0x80, 0x80, 0x80, 0x80, 0x80, 0x80, 0x01]) =
      (0, ⟨[0x80, 0x80, 0x80, 0x80, 0x80, 0x80, 0x80, 0x80, 0x01], 64⟩) ∧
    get_leb128 (init_get_bits8 [0x80, 0x80, 0x80, 0x80, 0x80, 0x80, 0x80, 0x80, 0x01]) =
      .error .invalidData ∧
    leb [0x80, 0x80, 0x80, 0x80, 0x80, 0x80, 0x80, 0x80, 0x01] = .error .invalidData := by
  refine ⟨?_, ?_, ?_⟩ <;> rfl

/-- C2 witness: the amended theorem applied to a concrete all-continuation
input, on which the IAMF byte-stream decoder reports InvalidData. -/
theorem C2_witness :
    leb [0x80, 0x80, 0x80, 0x80, 0x80, 0x80, 0x80, 0x80] = .error .invalidData :=
  C2_amended.2.2.2.2 _ (by decide)

end IAMF

namespace AV1

/-- The fixed point of INT_MAX / 8 used by the OBU range check. -/
theorem INT_MAX_div8 : INT_MAX / 8 = 268435455 := by decide

/-- The header parser only fails with InvalidData. -/
theorem parse_obu_header_error (buf : List Nat) (e : Err)
    (h : parse_obu_header buf = .error e) : e = .invalidData := by
  simp only [parse_obu_header] at h
  split at h
  · cases h
    rfl
  · cases h

/-- Every successful `ff_av1_extract_obu` consumes at least one byte
(the header byte is always present and the parsed size is non-negative
after the ERANGE check), and the consumed length is bounded by
`INT_MAX/8` plus one byte past the buffer end. -/
theorem ff_av1_extract_obu_consumed (buf : List Nat) (obu : AV1OBU) (consumed : Nat)
    (h : ff_av1_extract_obu buf = .ok (obu, consumed)) :
    1 ≤ consumed ∧ consumed ≤ buf.length + 1 + (INT_MAX / 8).toNat := by
  unfold ff_av1_extract_obu at h
  split at h
  next e heq => cases h
  next hdr heq =>
    split at h
    · cases h
    · rename_i hrange
      rw [not_or] at hrange
      obtain ⟨h1, h2⟩ := hrange
      cases h
      have hb := parse_obu_header_start_pos buf hdr heq
      rw [INT_MAX_div8] at h1 ⊢
      constructor
      · omega
      · omega

/-- `ff_av1_extract_obu` never reports the fuel marker. -/
theorem ff_av1_extract_obu_no_fuelOut (buf : List Nat) (e : Err)
    (h : ff_av1_extract_obu buf = .error e) : e ≠ .fuelOut := by
  unfold ff_av1_extract_obu at h
  split at h
  next e2 heq =>
    cases h
    rw [parse_obu_header_error buf e heq]
    intro hc
    cases hc
  next hdr heq =>
    split at h
    · cases h
      intro hc
      cases hc
    · cases h

/-- The split loop never runs out of fuel when given one unit of fuel more
than the buffer length: every iteration consumes at least one byte. -/
theorem av1_packet_split_go_no_fuelOut (fuel : Nat) : ∀ buf : List Nat,
    buf.length < fuel → av1_packet_split_go buf fuel ≠ .error .fuelOut := by
  induction fuel with
  | zero =>
    intro buf h
    exact absurd h (Nat.not_lt_zero _)
  | succ fuel ih =>
    intro buf hlen hc
    simp only [av1_packet_split_go] at hc
    split at hc
    · cases hc
    · rename_i hne
      split at hc
      next e heq =>
        cases hc
        exact ff_av1_extract_obu_no_fuelOut buf _ heq rfl
      next obu consumed heq =>
        have hcons := ff_av1_extract_obu_consumed buf obu consumed heq
        split at hc
        next e2 hr =>
          cases hc
          have hdrop : (buf.drop consumed).length < fuel := by
            rw [List.length_drop]
            omega
          exact ih (buf.drop consumed) hdrop hr
        next obus hr =>
          cases hc

/-- C10: `ff_av1_packet_split` terminates on every input buffer.  Every
successful `ff_av1_extract_obu` call consumes at least one byte (the header
byte is always read, and the parsed obu_size is rejected with ERANGE when
negative or above INT_MAX/8, so the returned length is positive and
bounded); hence the loop, whose remaining byte count strictly decreases,
finishes within `buf.length + 1` iterations — running it with that much
fuel never reaches the fuel-exhaustion marker. -/
theorem C10_theorem :
    (∀ (buf : List Nat) (obu : AV1OBU) (consumed : Nat),
      ff_av1_extract_obu buf = .ok (obu, consumed) →
      1 ≤ consumed ∧ consumed ≤ buf.length + 1 + (INT_MAX / 8).toNat) ∧
    (∀ buf : List Nat, ff_av1_packet_split buf ≠ .error .fuelOut) := by
  constructor
  · exact ff_av1_extract_obu_consumed
  · intro buf
    exact av1_packet_split_go_no_fuelOut (buf.length + 1) buf (Nat.lt_succ_self _)

/-- C10 witness: a two-byte buffer holding one temporal-delimiter OBU is
extracted with a consumed length of exactly 2, and the split loop on it
terminates. -/
theorem C10_witness :
    (1 ≤ 2 ∧ 2 ≤ [0x12, 0x00].length + 1 + (INT_MAX / 8).toNat) ∧
    ff_av1_packet_split [0x12, 0x00] ≠ .error .fuelOut :=
  ⟨C10_theorem.1 [0x12, 0x00] ⟨2, 0, 0, 0, 2⟩ 2 (by rfl), C10_theorem.2 [0x12, 0x00]⟩

end AV1

namespace Merge

/-- AV1 OBU type tag of a Temporal Delimiter (libavcodec/av1.h). -/
def AV1_OBU_TEMPORAL_DELIMITER : Nat := 2

/-- One coded-bitstream unit as handled by the merge filter: the type tag
plus an opaque content identifier (the filter moves decoded-content
references between fragments without inspecting them). -/
structure CbsUnit where
  utype : Nat
  content : Nat
deriving Repr, DecidableEq, Inhabited

/-- Insertion loop of `av1_frame_merge_filter` (av1_frame_merge_bsf.c:72-82
and 88-98): append the fragment's units to the temporal unit in order,
failing with InvalidData when a Temporal Delimiter appears at any unit
index other than 0. -/
def merge_insert_go (units : List CbsUnit) (i : Nat) (tu : List CbsUnit) :
    Except Err (List CbsUnit) :=
  match units with
  | [] => .ok tu
  | u :: rest =>
    if i ≠ 0 ∧ u.utype = AV1_OBU_TEMPORAL_DELIMITER then .error .invalidData
    else merge_insert_go rest (i + 1) (tu ++ [u])

/-- Outcome of one merge-filter call that did not fail: an emitted packet
(written from the accumulated temporal unit). -/
inductive MergeOut where
  | packet (out : List CbsUnit)
deriving Repr, DecidableEq

/-- Embedding of `av1_frame_merge_filter` (av1_frame_merge_bsf.c:32-110).
The input is the fragment produced by `ff_cbs_read_packet` from the next
packet, or `none` when `ff_bsf_get_packet_ref` reported EOF.  The result
pairs the filter outcome (an emitted packet, or the returned error code:
EAGAIN after plain accumulation, EOF at exhausted input, InvalidData on
structural violations) with the accumulator fragment left for the next
call; the fail path resets both fragments, so the accumulator it leaves is
empty. -/
def av1_frame_merge_filter (tu : List CbsUnit) (input : Option (List CbsUnit)) :
    Except Err MergeOut × List CbsUnit :=
  match input with
  | none =>
    if tu.length > 0 then (.ok (.packet tu), [])
    else (.error .eof, tu)
  | some frag =>
    if frag.length = 0 then (.error .invalidData, [])
    else if tu.length = 0 ∧ (frag.headD default).utype ≠ AV1_OBU_TEMPORAL_DELIMITER then
      (.error .invalidData, [])
    else if tu.length > 0 ∧ (frag.headD default).utype = AV1_OBU_TEMPORAL_DELIMITER then
      match merge_insert_go frag 0 [] with
      | .ok tu2 => (.ok (.packet tu), tu2)
      | .error e => (.error e, [])
    else
      match merge_insert_go frag 0 tu with
      | .ok tu2 => (.error .eagain, tu2)
      | .error e => (.error e, [])

/-- The insertion loop fails with InvalidData whenever some unit at overall
index other than 0 is a Temporal Delimiter. -/
theorem merge_insert_go_error (units : List CbsUnit) : ∀ (i : Nat) (tu : List CbsUnit),
    (∃ j, 0 < i + j ∧ j < units.length ∧
      (units.getD j default).utype = AV1_OBU_TEMPORAL_DELIMITER) →
    merge_insert_go units i tu = .error .invalidData := by
  induction units with
  | nil =>
    intro i tu h
    obtain ⟨j, _, hj, _⟩ := h
    simp at hj
  | cons u rest ih =>
    intro i tu h
    obtain ⟨j, hij, hj, hty⟩ := h
    simp only [merge_insert_go]
    split
    · rfl
    · rename_i hu
      apply ih (i + 1) (tu ++ [u])
      match j, hij, hj, hty with
      | 0, hij, hj, hty =>
        simp only [List.getD_cons_zero] at hty
        exact absurd ⟨by omega, hty⟩ hu
      | k + 1, hij, hj, hty =>
        refine ⟨k, by omega, by simpa using hj, ?_⟩
        simpa using hty

/-- C3: for every call of the AV1 merge filter, a Temporal Delimiter at a
unit index other than 0 inside the incoming fragment makes the filter
return InvalidData, on the path that emits the accumulated unit and starts
re-accumulating (non-empty accumulator, leading delimiter) as well as on
the path that appends to the accumulator. -/
theorem C3_theorem (tu frag : List CbsUnit)
    (hmis : ∃ i, 0 < i ∧ i < frag.length ∧
      (frag.getD i default).utype = AV1_OBU_TEMPORAL_DELIMITER) :
    (av1_frame_merge_filter tu (some frag)).1 = .error .invalidData := by
  obtain ⟨i, hi0, hilen, hity⟩ := hmis
  have herr1 : merge_insert_go frag 0 [] = .error .invalidData :=
    merge_insert_go_error frag 0 [] ⟨i, by omega, hilen, hity⟩
  have herr2 : merge_insert_go frag 0 tu = .error .invalidData :=
    merge_insert_go_error frag 0 tu ⟨i, by omega, hilen, hity⟩
  simp only [av1_frame_merge_filter]
  split
  · rfl
  · split
    · rfl
    · split
      · rw [herr1]
      · rw [herr2]

/-- C3 witness: a source packet of three OBUs whose third is a Temporal
Delimiter is rejected while the accumulator holds a pending unit (the
emit-and-reaccumulate path). -/
theorem C3_witness :
    (av1_frame_merge_filter [⟨2, 0⟩] (some [⟨2, 1⟩, ⟨6, 2⟩, ⟨2, 3⟩])).1 =
      .error .invalidData :=
  C3_theorem [⟨2, 0⟩] [⟨2, 1⟩, ⟨6, 2⟩, ⟨2, 3⟩] ⟨2, by decide, by decide, by decide⟩

/-- C4 counterexample: with a non-empty accumulator, a fragment with zero
units is not treated as a distinct no-data condition: the filter returns
the same InvalidData error used for protocol violations and resets its
accumulator to empty, while `ff_av1_packet_split` really does produce zero
OBUs (with success) from a zero-length buffer. -/
theorem C4_counterexample :
    av1_frame_merge_filter [⟨6, 7⟩] (some []) = (.error .invalidData, []) ∧
    AV1.ff_av1_packet_split [] = .ok [] := by
  constructor
  · rfl
  · rfl

/-- C4 amended: splitting a zero-length buffer does yield zero units
without an error, but the merge filter reacts to a zero-unit fragment with
the generic InvalidData error and resets both fragments, clearing even a
non-empty accumulator. -/
theorem C4_amended : ∀ tu : List CbsUnit,
    av1_frame_merge_filter tu (some []) = (.error .invalidData, []) ∧
    AV1.ff_av1_packet_split [] = .ok [] := by
  intro tu
  constructor
  · rfl
  · rfl

end Merge

namespace Split

/-- AV1 OBU type tag of a Frame OBU (libavcodec/av1.h). -/
def AV1_OBU_FRAME : Nat := 6

/-- AV1 OBU type tag of a Frame Header OBU (libavcodec/av1.h). -/
def AV1_OBU_FRAME_HEADER : Nat := 3

/-- AV1 OBU type tag of a Tile Group OBU (libavcodec/av1.h). -/
def AV1_OBU_TILE_GROUP : Nat := 4

/-- The no-PTS sentinel AV_NOPTS_VALUE (INT64_MIN). -/
def AV_NOPTS_VALUE : Int := -9223372036854775808

/-- Decoded frame-header fields the split filter inspects. -/
structure FrameHeader where
  show_existing_frame : Bool
  show_frame : Bool
  tile_cols : Nat
  tile_rows : Nat
deriving Repr, DecidableEq, Inhabited

/-- One unit of the temporal-unit fragment: the AV1RawOBU content union is
flattened into the frame-header fields (meaningful for Frame and
FrameHeader units) and the tile-group end index (meaningful for TileGroup
units), next to the raw data size. -/
structure SUnit where
  utype : Nat
  header : FrameHeader
  tg_end : Nat
  data_size : Nat
deriving Repr, DecidableEq, Inhabited

/-- Persistent state of the split filter (AV1FSplitContext). -/
structure SplitState where
  nb_frames : Nat
  cur_frame : Nat
  cur_frame_idx : Int
  last_frame_idx : Int
deriving Repr, DecidableEq, Inhabited

/-- The packet metadata the filter copies or rewrites. -/
structure Packet where
  pts : Int
  dts : Int
  duration : Int
  size : Nat
deriving Repr, DecidableEq, Inhabited

/-- Scan loop of `av1_frame_split_filter` (av1_frame_split_bsf.c:81-139),
starting at unit index `i`, accumulating `size` and tracking the pending
frame header; it ends by reporting the frame to emit, the accumulated byte
size and the updated state.  Reaching the end of the unit list with no
frame corresponds to the `av_assert0(frame)` failure.  `fuel` bounds the
iterations; with `td.length + 1` units of fuel the marker is never
reached. -/
def split_loop (td : List SUnit) : SplitState → Option FrameHeader → Int → Nat → Nat →
    Nat → Except Err (FrameHeader × Nat × SplitState)
  | _, _, _, _, _, 0 => .error .fuelOut
  | st, frame, cur_frame_type, size, i, fuel + 1 =>
    if i < td.length then
      let u := td.getD i default
      let size1 := size + u.data_size
      if u.utype = AV1_OBU_FRAME then
        match frame with
        | some _ => .error .invalidData
        | none =>
          let st1 : SplitState :=
            ⟨st.nb_frames, st.cur_frame + 1, (i : Int), st.cur_frame_idx⟩
          if st1.cur_frame < st1.nb_frames then .ok (u.header, size1, st1)
          else split_loop td st1 (some u.header) (AV1_OBU_FRAME : Nat) size1 (i + 1) fuel
      else if u.utype = AV1_OBU_FRAME_HEADER then
        match frame with
        | some _ => .error .invalidData
        | none =>
          let st1 : SplitState :=
            ⟨st.nb_frames, st.cur_frame + 1, st.cur_frame_idx, st.cur_frame_idx⟩
          if u.header.show_existing_frame ∧ st1.cur_frame < st1.nb_frames then
            .ok (u.header, size1, { st1 with cur_frame_idx := (i : Int) })
          else split_loop td st1 (some u.header) (AV1_OBU_FRAME_HEADER : Nat) size1 (i + 1) fuel
      else if u.utype = AV1_OBU_TILE_GROUP then
        match frame with
        | none => .error .invalidData
        | some f =>
          if cur_frame_type ≠ (AV1_OBU_FRAME_HEADER : Nat) then .error .invalidData
          else if (u.tg_end : Int) = (f.tile_cols : Int) * (f.tile_rows : Int) - 1 ∧
              st.cur_frame < st.nb_frames then
            .ok (f, size1, { st with cur_frame_idx := (i : Int) })
          else split_loop td st frame cur_frame_type size1 (i + 1) fuel
      else split_loop td st frame cur_frame_type size1 (i + 1) fuel
    else
      match frame with
      | none => .error .assertFail
      | some f => .ok (f, size, st)

/-- Packet emission of the split branch of `av1_frame_split_filter`
(av1_frame_split_bsf.c:77-155): run the scan loop from the unit after the
previous frame boundary, reference the buffered packet's metadata into the
output, set the output size to the accumulated byte count, and clear the
presentation timestamp exactly when the carried frame is neither shown nor
show-existing.  The boolean reports whether the buffered packet is released
(last frame emitted). -/
def av1_frame_split_emit (td : List SUnit) (st : SplitState) (buffer_pkt : Packet) :
    Except Err (Packet × SplitState × Bool) :=
  match split_loop td st none (-1) 0 (st.cur_frame_idx + 1).toNat (td.length + 1) with
  | .error e => .error e
  | .ok (f, size, st1) =>
    let newPts : Int :=
      if f.show_existing_frame = false ∧ f.show_frame = false then AV_NOPTS_VALUE
      else buffer_pkt.pts
    let out : Packet := ⟨newPts, buffer_pkt.dts, buffer_pkt.duration, size⟩
    .ok (out, st1, decide (st1.nb_frames ≤ st1.cur_frame))

/-- Frame counting of the non-split branch (av1_frame_split_bsf.c:62-68). -/
def count_frames (td : List SUnit) : Nat :=
  td.countP (fun u => u.utype = AV1_OBU_FRAME ∨ u.utype = AV1_OBU_FRAME_HEADER)

/-- Filter state seeded when a packet with more than one frame arrives
(av1_frame_split_bsf.c:69-74). -/
def split_init_state (nb_frames : Nat) : SplitState := ⟨nb_frames, 0, -1, -1⟩

/-- C5: every split-off packet emitted by the AV1 frame-split filter keeps
the buffered packet's timestamp metadata (dts, duration) unchanged, and its
presentation timestamp is the buffered packet's pts unless the frame the
packet carries has both show_frame and show_existing_frame unset, in which
case it is cleared to the no-PTS sentinel. -/
theorem C5_theorem (td : List SUnit) (st : SplitState) (pkt out : Packet)
    (st1 : SplitState) (fin : Bool)
    (h : av1_frame_split_emit td st pkt = .ok (out, st1, fin)) :
    out.dts = pkt.dts ∧ out.duration = pkt.duration ∧
    ∃ f size,
      split_loop td st none (-1) 0 (st.cur_frame_idx + 1).toNat (td.length + 1) =
        .ok (f, size, st1) ∧
      out.size = size ∧
      ((f.show_frame = false ∧ f.show_existing_frame = false) →
        out.pts = AV_NOPTS_VALUE) ∧
      ((f.show_frame = true ∨ f.show_existing_frame = true) →
        out.pts = pkt.pts) := by
  unfold av1_frame_split_emit at h
  split at h
  · cases h
  next f size st2 heq =>
    cases h
    refine ⟨rfl, rfl, f, size, heq, rfl, ?_, ?_⟩
    · intro hb
      simp only [hb.1, hb.2, and_self, if_pos]
    · intro hb
      have : ¬(f.show_existing_frame = false ∧ f.show_frame = false) := by
        rcases hb with h1 | h1 <;> simp [h1]
      simp only [this, if_neg]
      cases hb <;> simp_all

/-- C5 witness: a temporal unit holding a temporal delimiter and two Frame
OBUs, the first of which is neither shown nor show-existing; the first
split-off packet keeps dts and duration and has its pts cleared. -/
theorem C5_witness :
    ((⟨AV_NOPTS_VALUE, 3, 4, 12⟩ : Packet).dts = (⟨55, 3, 4, 99⟩ : Packet).dts ∧
      (⟨AV_NOPTS_VALUE, 3, 4, 12⟩ : Packet).duration = (⟨55, 3, 4, 99⟩ : Packet).duration ∧
      ∃ f size,
        split_loop [⟨2, default, 0, 2⟩, ⟨6, ⟨false, false, 1, 1⟩, 0, 10⟩,
            ⟨6, ⟨false, true, 1, 1⟩, 0, 5⟩] (split_init_state 2) none (-1) 0
          ((split_init_state 2).cur_frame_idx + 1).toNat 4 = .ok (f, size, ⟨2, 1, 1, -1⟩) ∧
        (⟨AV_NOPTS_VALUE, 3, 4, 12⟩ : Packet).size = size ∧
        ((f.show_frame = false ∧ f.show_existing_frame = false) →
          (⟨AV_NOPTS_VALUE, 3, 4, 12⟩ : Packet).pts = AV_NOPTS_VALUE) ∧
        ((f.show_frame = true ∨ f.show_existing_frame = true) →
          (⟨AV_NOPTS_VALUE, 3, 4, 12⟩ : Packet).pts = (⟨55, 3, 4, 99⟩ : Packet).pts)) :=
  C5_theorem [⟨2, default, 0, 2⟩, ⟨6, ⟨false, false, 1, 1⟩, 0, 10⟩,
      ⟨6, ⟨false, true, 1, 1⟩, 0, 5⟩] (split_init_state 2) ⟨55, 3, 4, 99⟩
    ⟨AV_NOPTS_VALUE, 3, 4, 12⟩ ⟨2, 1, 1, -1⟩ false (by rfl)

end Split

namespace IAMF

/-- Audio-element lookup inside `mix_presentation_obu` (iamfdec.c:1135-1139):
scan every registered audio element and record a reference to each record
whose stream-group id matches; the loop has no break, so the last matching
registered record wins.  The registry is represented by the list of
registered stream-group ids, and a reference to a record by its index. -/
def resolve_audio_element (regIds : List Nat) (audio_element_id : Nat) : Option Nat :=
  (List.range regIds.length).foldl
    (fun acc k => if regIds.getD k 0 = audio_element_id then some k else acc) none

/-- Per-submix-element resolution step of `mix_presentation_obu`
(iamfdec.c:1120-1145): each submix element reads its audio_element_id,
which must resolve against a previously registered audio element;
an unresolved reference is fatal InvalidData. -/
def resolve_submix_elements (regIds : List Nat) : List Nat → Except Err (List Nat)
  | [] => .ok []
  | aid :: rest =>
    match resolve_audio_element regIds aid with
    | none => .error .invalidData
    | some k =>
      match resolve_submix_elements regIds rest with
      | .error e => .error e
      | .ok ks => .ok (k :: ks)

/-- One layer of a registered audio element, as the parameter-block reader
sees it (iamfdec.c:533). -/
structure IAMFLayer where
  recon_gain_is_present : Bool
deriving Repr, DecidableEq, Inhabited

/-- A recon-gain row as allocated: `avformat_iamf_param_definition_alloc`
(iamf.c:248-302) allocates subblocks with av_mallocz and applies
av_opt_set_defaults, which for AVIAMFReconGainParameterData sets only
subblock_duration, leaving the whole recon_gain[6][12] array zero. -/
def recon_row_default : List Nat := List.replicate 12 0

/-- Gain-byte loop for one flagged layer (iamfdec.c:1553-1556): for each
set bit of the transformed bitmap below bitcount, one byte is read into
the row at that column (avio_r8 yields 0 at end of input).  The last
argument counts the remaining loop iterations, `bitcount - j`. -/
def read_gain_bytes (flags2 : Nat) : Nat → List Nat → List Nat → Nat → List Nat × List Nat
  | _, input, row, 0 => (row, input)
  | j, input, row, rem + 1 =>
    if flags2 &&& (1 <<< j) ≠ 0 then
      read_gain_bytes flags2 (j + 1) input.tail (row.set j (input.headD 0)) rem
    else
      read_gain_bytes flags2 (j + 1) input row rem

/-- Per-layer recon-gain read (iamfdec.c:1543-1557): a layer whose
recon_gain_is_present flag is clear consumes nothing and keeps its row; a
flagged layer reads a leb128 gain-flag bitmap, derives the bit count from
the bitmap's bit 7, folds bit 7 out of the bitmap, and reads one gain byte
per set bit. -/
def parse_recon_layer (flag : Bool) (input row : List Nat) :
    Except Err (List Nat × List Nat) :=
  if flag then
    match leb input with
    | .error e => .error e
    | .ok (recon_gain_flags, _, rest) =>
      let bitcount := 7 + 5 * (if recon_gain_flags &&& 0x80 ≠ 0 then 1 else 0)
      let flags2 := (recon_gain_flags &&& 0x7F) ||| ((recon_gain_flags &&& 0xFF00) >>> 1)
      .ok (read_gain_bytes flags2 0 rest row bitcount)
  else .ok (row, input)

/-- Recon-gain subblock read over the referenced audio element's layers
(iamfdec.c:1543-1558), each row starting from its zeroed allocation. -/
def parse_recon_gain (layers : List IAMFLayer) (input : List Nat) :
    Except Err (List (List Nat) × List Nat) :=
  match layers with
  | [] => .ok ([], input)
  | l :: ls =>
    match parse_recon_layer l.recon_gain_is_present input recon_row_default with
    | .error e => .error e
    | .ok (row, rest) =>
      match parse_recon_gain ls rest with
      | .error e => .error e
      | .ok (rows, rest2) => .ok (row :: rows, rest2)

/-- Number of gain bytes a flagged layer reads after its bitmap: one per
set bit of the transformed bitmap below the bit count. -/
def gain_byte_count (flags : Nat) : Nat :=
  let bitcount := 7 + 5 * (if flags &&& 0x80 ≠ 0 then 1 else 0)
  let flags2 := (flags &&& 0x7F) ||| ((flags &&& 0xFF00) >>> 1)
  (List.range bitcount).countP (fun j => flags2 &&& (1 <<< j) ≠ 0)

/-- Little-endian 32-bit write (AV_WL32). -/
def wl32 (v : Nat) : List Nat :=
  [v % 256, (v >>> 8) % 256, (v >>> 16) % 256, (v >>> 24) % 256]

/-- A packet side-data buffer: its allocated size and the byte prefix the
demuxer writes into it. -/
structure SideData where
  size : Nat
  written : List Nat
deriving Repr, DecidableEq

/-- Skip-samples side data attached by `audio_frame_obu`
(iamfdec.c:1360-1366): when either trimming count is non-zero, an
AV_PKT_DATA_SKIP_SAMPLES buffer of 10 bytes is allocated, and its first
8 bytes are written as the little-endian 32-bit skip count followed by the
little-endian 32-bit discard count; the trailing 2 bytes of the standard
layout are left unwritten. -/
def audio_frame_skip_side_data (skip_samples discard_padding : Nat) : Option SideData :=
  if skip_samples ≠ 0 ∨ discard_padding ≠ 0 then
    some ⟨10, wl32 skip_samples ++ wl32 discard_padding⟩
  else none

end IAMF

namespace Mux

/-- Stream-group parameter types distinguished by `iamf_init`. -/
inductive StreamGroupType where
  | iamfAudioElement
  | iamfMixPresentation
  | other
deriving Repr, DecidableEq, Inhabited

/-- Counting loop of `iamf_init` (iamfenc.c:416-423). -/
def count_audio_elements (groups : List StreamGroupType) : Nat :=
  groups.countP (fun g => g == StreamGroupType.iamfAudioElement)

/-- Counting loop of `iamf_init` (iamfenc.c:416-423). -/
def count_mix_presentations (groups : List StreamGroupType) : Nat :=
  groups.countP (fun g => g == StreamGroupType.iamfMixPresentation)

/-- The validation condition of `iamf_init` (iamfenc.c:424), translated
exactly as written: `(nb_audio_elements < 1 && nb_audio_elements > 2) ||
nb_mix_presentations < 1`; true means the EINVAL branch is taken. -/
def iamf_init_group_check_fails (nbAE nbMP : Int) : Bool :=
  decide ((nbAE < 1 ∧ nbAE > 2) ∨ nbMP < 1)

/-- The whole stream-group validation step of `iamf_init`
(iamfenc.c:416-427) on the list of stream-group types. -/
def iamf_init_validate_groups (groups : List StreamGroupType) : Except Err Unit :=
  if iamf_init_group_check_fails (count_audio_elements groups)
      (count_mix_presentations groups) then
    .error .einval
  else .ok ()

end Mux

namespace IAMF

/-- A some-result of the registry fold names a scanned index whose
registered id matches. -/
theorem resolve_fold_some (regIds : List Nat) (aid : Nat) :
    ∀ (l : List Nat) (acc : Option Nat) (k : Nat),
    l.foldl (fun acc k => if regIds.getD k 0 = aid then some k else acc) acc = some k →
    (k ∈ l ∧ regIds.getD k 0 = aid) ∨ acc = some k := by
  intro l
  induction l with
  | nil =>
    intro acc k h
    exact Or.inr h
  | cons x xs ih =>
    intro acc k h
    simp only [List.foldl_cons] at h
    rcases ih _ k h with ⟨hm, he⟩ | hacc
    · exact Or.inl ⟨List.mem_cons_of_mem x hm, he⟩
    · by_cases hx : regIds.getD x 0 = aid
      · rw [if_pos hx] at hacc
        cases hacc
        exact Or.inl ⟨List.mem_cons_self x xs, hx⟩
      · rw [if_neg hx] at hacc
        exact Or.inr hacc

/-- When no scanned index matches, the registry fold keeps its
accumulator. -/
theorem resolve_fold_skip (regIds : List Nat) (aid : Nat) :
    ∀ (l : List Nat) (acc : Option Nat),
    (∀ k ∈ l, regIds.getD k 0 ≠ aid) →
    l.foldl (fun acc k => if regIds.getD k 0 = aid then some k else acc) acc = acc := by
  intro l
  induction l with
  | nil =>
    intro acc _
    rfl
  | cons x xs ih =>
    intro acc hno
    simp only [List.foldl_cons]
    rw [if_neg (hno x (List.mem_cons_self x xs))]
    exact ih acc (fun k hk => hno k (List.mem_cons_of_mem x hk))

/-- A resolved reference points into the registry at a record whose id is
the requested one. -/
theorem resolve_audio_element_some (regIds : List Nat) (aid k : Nat)
    (h : resolve_audio_element regIds aid = some k) :
    k < regIds.length ∧ regIds.getD k 0 = aid := by
  rcases resolve_fold_some regIds aid (List.range regIds.length) none k h with ⟨hm, he⟩ | hc
  · exact ⟨List.mem_range.mp hm, he⟩
  · cases hc

/-- An id registered nowhere does not resolve. -/
theorem resolve_audio_element_none (regIds : List Nat) (aid : Nat)
    (hno : ∀ k, k < regIds.length → regIds.getD k 0 ≠ aid) :
    resolve_audio_element regIds aid = none :=
  resolve_fold_skip regIds aid (List.range regIds.length) none
    (fun k hk => hno k (List.mem_range.mp hk))

/-- C6: during IAMF demux, a Mix Presentation submix element whose
audio_element_id matches no previously registered Audio Element makes the
parse fail with InvalidData, and when every id matches, each submix
element's audio-element reference is one of the registered records (an
index into the registry, not a copy) whose id is exactly the one the
element carries. -/
theorem C6_theorem (regIds : List Nat) (ids : List Nat) :
    ((∃ aid ∈ ids, ∀ k, k < regIds.length → regIds.getD k 0 ≠ aid) →
      resolve_submix_elements regIds ids = .error .invalidData) ∧
    (∀ out, resolve_submix_elements regIds ids = .ok out →
      out.length = ids.length ∧
      ∀ j, j < ids.length → out.getD j 0 < regIds.length ∧
        regIds.getD (out.getD j 0) 0 = ids.getD j 0) := by
  induction ids with
  | nil =>
    constructor
    · intro h
      obtain ⟨aid, hm, _⟩ := h
      cases hm
    · intro out h
      cases h
      exact ⟨rfl, fun j hj => absurd hj (Nat.not_lt_zero j)⟩
  | cons aid rest ih =>
    constructor
    · intro h
      obtain ⟨a, hm, hno⟩ := h
      simp only [resolve_submix_elements]
      cases hr : resolve_audio_element regIds aid with
      | none => rfl
      | some k =>
        rcases List.mem_cons.mp hm with rfl | hmr
        · have := resolve_audio_element_some regIds a k hr
          exact absurd this.2 (hno k this.1)
        · rw [ih.1 ⟨a, hmr, hno⟩]
    · intro out h
      simp only [resolve_submix_elements] at h
      cases hr : resolve_audio_element regIds aid with
      | none =>
        rw [hr] at h
        cases h
      | some k =>
        rw [hr] at h
        cases hrest : resolve_submix_elements regIds rest with
        | error e =>
          rw [hrest] at h
          cases h
        | ok ks =>
          rw [hrest] at h
          cases h
          have hk := resolve_audio_element_some regIds aid k hr
          have htail := (ih.2 ks hrest)
          refine ⟨by simpa using htail.1, ?_⟩
          intro j hj
          match j with
          | 0 => simpa using hk
          | j + 1 =>
            have := htail.2 j (by simpa using hj)
            simpa using this

/-- C6 witness: with audio elements of ids 7 and 42 registered, a submix
element referencing id 42 resolves to index 1, the registered record whose
id is 42. -/
theorem C6_witness :
    [1].length = [42].length ∧
    ∀ j, j < [42].length → [1].getD j 0 < [7, 42].length ∧
      [7, 42].getD ([1].getD j 0) 0 = [42].getD j 0 :=
  (C6_theorem [7, 42] [42]).2 [1] (by rfl)

/-- The gain-byte loop consumes exactly one input byte per set bitmap bit
among the remaining iterations. -/
theorem read_gain_bytes_drop (flags2 : Nat) : ∀ (rem j : Nat) (input row : List Nat),
    (read_gain_bytes flags2 j input row rem).2 =
      input.drop ((List.range rem).countP (fun t => flags2 &&& (1 <<< (j + t)) ≠ 0)) := by
  intro rem
  induction rem with
  | zero =>
    intro j input row
    rfl
  | succ rem ih =>
    intro j input row
    have hrange : List.range (rem + 1) = 0 :: (List.range rem).map Nat.succ :=
      List.range_succ_eq_map rem
    rw [hrange]
    simp only [List.countP_cons, List.countP_map]
    simp only [read_gain_bytes]
    split
    · rename_i hbit
      rw [ih (j + 1) input.tail (row.set j (input.headD 0))]
      rw [show (decide (flags2 &&& (1 <<< (j + 0)) ≠ 0)) = true by simpa using hbit]
      have hcomp : ((fun t => decide (flags2 &&& (1 <<< (j + t)) ≠ 0)) ∘ Nat.succ) =
          (fun t => decide (flags2 &&& (1 <<< (j + 1 + t)) ≠ 0)) := by
        funext t
        simp only [Function.comp_apply, Nat.add_succ, Nat.succ_add]
      rw [hcomp, ← List.drop_one input, List.drop_drop]
      congr 1
      simp [Nat.add_comm]
    · rename_i hbit
      rw [ih (j + 1) input row]
      rw [show (decide (flags2 &&& (1 <<< (j + 0)) ≠ 0)) = false by simpa using hbit]
      have hcomp : ((fun t => decide (flags2 &&& (1 <<< (j + t)) ≠ 0)) ∘ Nat.succ) =
          (fun t => decide (flags2 &&& (1 <<< (j + 1 + t)) ≠ 0)) := by
        funext t
        simp only [Function.comp_apply, Nat.add_succ, Nat.succ_add]
      rw [hcomp]
      congr 1

/-- C7: in a ReconGain parameter block, exactly the layers whose
recon_gain_is_present flag is set consume input — a leb128 gain-flag
bitmap plus one gain byte per set bit — while the recon-gain row of every
non-flagged layer remains at the zero values it got from allocation. -/
theorem C7_theorem :
    (∀ (layers : List IAMFLayer) (input : List Nat) (rows : List (List Nat))
      (rest : List Nat),
      parse_recon_gain layers input = .ok (rows, rest) →
      rows.length = layers.length ∧
      (∀ i, i < layers.length → (layers.getD i default).recon_gain_is_present = false →
        rows.getD i [] = recon_row_default)) ∧
    (∀ input row : List Nat, parse_recon_layer false input row = .ok (row, input)) ∧
    (∀ (input row : List Nat) (flags n : Nat) (rest : List Nat),
      leb input = .ok (flags, n, rest) →
      ∃ row2, parse_recon_layer true input row =
        .ok (row2, rest.drop (gain_byte_count flags))) := by
  refine ⟨?_, ?_, ?_⟩
  · intro layers
    induction layers with
    | nil =>
      intro input rows rest h
      cases h
      exact ⟨rfl, fun i hi => absurd hi (Nat.not_lt_zero i)⟩
    | cons l ls ih =>
      intro input rows rest h
      simp only [parse_recon_gain] at h
      split at h
      · cases h
      next row rest1 heq =>
        split at h
        · cases h
        next rows1 rest2 heq2 =>
          cases h
          have htail := ih rest1 rows1 rest heq2
          refine ⟨by simpa using htail.1, ?_⟩
          intro i hi hflag
          match i with
          | 0 =>
            simp only [List.getD_cons_zero] at hflag ⊢
            rw [hflag] at heq
            simp only [parse_recon_layer] at heq
            cases heq
            rfl
          | i + 1 =>
            have := htail.2 i (by simpa using hi) (by simpa using hflag)
            simpa using this
  · intro input row
    rfl
  · intro input row flags n rest hleb
    refine ⟨(read_gain_bytes ((flags &&& 0x7F) ||| ((flags &&& 0xFF00) >>> 1)) 0 rest row
      (7 + 5 * (if flags &&& 0x80 ≠ 0 then 1 else 0))).1, ?_⟩
    simp only [parse_recon_layer, hleb]
    have hd := read_gain_bytes_drop ((flags &&& 0x7F) ||| ((flags &&& 0xFF00) >>> 1))
      (7 + 5 * (if flags &&& 0x80 ≠ 0 then 1 else 0)) 0 rest row
    simp only [Nat.zero_add] at hd
    rw [show gain_byte_count flags = (List.range
        (7 + 5 * (if flags &&& 0x80 ≠ 0 then 1 else 0))).countP
        (fun j => decide (((flags &&& 0x7F) ||| ((flags &&& 0xFF00) >>> 1)) &&& (1 <<< j) ≠ 0))
      from rfl]
    rw [← hd]
    simp

/-- C7 witness: an audio element with two layers, only the first flagged,
and a parameter block carrying the bitmap 03 and two gain bytes AA BB:
the flagged layer's row receives the two bytes and the non-flagged layer's
row stays zero. -/
theorem C7_witness :
    [(0xAA : Nat) :: 0xBB :: List.replicate 10 0, List.replicate 12 0].length =
      [(⟨true⟩ : IAMFLayer), ⟨false⟩].length ∧
    (∀ i, i < [(⟨true⟩ : IAMFLayer), ⟨false⟩].length →
      ([(⟨true⟩ : IAMFLayer), ⟨false⟩].getD i default).recon_gain_is_present = false →
      [(0xAA : Nat) :: 0xBB :: List.replicate 10 0, List.replicate 12 0].getD i [] =
        recon_row_default) :=
  C7_theorem.1 [⟨true⟩, ⟨false⟩] [0x03, 0xAA, 0xBB]
    [0xAA :: 0xBB :: List.replicate 10 0, List.replicate 12 0] [] (by rfl)

/-- C8 counterexample: for an audio-frame OBU trimmed by one skip sample,
the demuxer allocates a skip-samples side-data buffer of 10 bytes, not 8 as
the claim states. -/
theorem C8_counterexample :
    audio_frame_skip_side_data 1 0 = some ⟨10, [1, 0, 0, 0, 0, 0, 0, 0]⟩ ∧
    (10 : Nat) ≠ 8 := by
  constructor
  · rfl
  · decide

/-- C8 amended: for every audio-frame OBU with a non-zero skip or discard
count, the demuxer attaches skip-samples side data of exactly 10 bytes
(the standard AV_PKT_DATA_SKIP_SAMPLES size), writing its first 8 bytes as
the 32-bit little-endian skip count followed by the 32-bit little-endian
discard count; with both counts zero no side data is attached. -/
theorem C8_amended :
    (∀ skip discard : Nat, skip ≠ 0 ∨ discard ≠ 0 →
      audio_frame_skip_side_data skip discard = some ⟨10, wl32 skip ++ wl32 discard⟩ ∧
      (wl32 skip ++ wl32 discard).length = 8) ∧
    audio_frame_skip_side_data 0 0 = none := by
  constructor
  · intro skip discard h
    constructor
    · simp only [audio_frame_skip_side_data, if_pos h]
    · simp [wl32]
  · rfl

/-- C8 witness: the amended theorem applied at skip = 1, discard = 0. -/
theorem C8_witness :
    audio_frame_skip_side_data 1 0 = some ⟨10, wl32 1 ++ wl32 0⟩ ∧
    (wl32 1 ++ wl32 0).length = 8 :=
  C8_amended.1 1 0 (Or.inl (by decide))

end IAMF

namespace Mux

/-- C9: the stream-group validation of iamf_init does not behave as
specified: its audio-element clause `(nb_audio_elements < 1 &&
nb_audio_elements > 2)` is unsatisfiable, so the check reduces to
`nb_mix_presentations < 1` alone and configurations with three (or zero)
audio-element stream groups and a mix presentation pass the validation,
although the adjacent error message demands between one and two audio
elements. -/
theorem C9_theorem :
    count_audio_elements [.iamfAudioElement, .iamfAudioElement, .iamfAudioElement,
      .iamfMixPresentation] = 3 ∧
    count_mix_presentations [.iamfAudioElement, .iamfAudioElement, .iamfAudioElement,
      .iamfMixPresentation] = 1 ∧
    iamf_init_validate_groups [.iamfAudioElement, .iamfAudioElement, .iamfAudioElement,
      .iamfMixPresentation] = .ok () ∧
    iamf_init_validate_groups [.iamfMixPresentation] = .ok () ∧
    (∀ nbAE nbMP : Int, iamf_init_group_check_fails nbAE nbMP = decide (nbMP < 1)) := by
  refine ⟨by rfl, by rfl, by rfl, by rfl, ?_⟩
  intro nbAE nbMP
  simp only [iamf_init_group_check_fails]
  rw [decide_eq_decide]
  constructor
  · rintro (⟨h1, h2⟩ | h)
    · omega
    · exact h
  · exact Or.inr

end Mux

end FFmpegSpec
